import Mathlib

/-!
Verification of the raft orchestration layer in `conn/node.go` (dgraph):
message batching and transmission, configuration-change coordination,
linearizable read-index coordination, and the peer directory.

Each Go function the claims mention is shallowly embedded as an executable
Lean definition; concurrency (channel receives, `select` resolution) is made
explicit by passing the sequence of resolving events as data. Definitions
come first, all theorems after.
-/

set_option autoImplicit false

namespace DG

/-! ## Message batching (`Send`, `BatchAndSendMessages` slurp phase)

A `sendmsg` is a destination id plus the marshalled payload bytes
(`sendmsg{to: m.To, data: data}` in `Send`). Bytes are modelled as `Nat`s
below 256; the 4-byte little-endian length prefix written by
`binary.Write(buf, binary.LittleEndian, uint32(len(sm.data)))` is `u32le`.
-/

structure sendmsg where
  to' : Nat
  data : List Nat
deriving DecidableEq

/-- The four little-endian bytes of `uint32(n)` (truncation mod 2^32 is
implicit in taking only four bytes). -/
def u32le (n : Nat) : List Nat :=
  [n % 256, n / 2 ^ 8 % 256, n / 2 ^ 16 % 256, n / 2 ^ 24 % 256]

/-- One wire frame: 4-byte little-endian payload length, then the payload. -/
def frame (sm : sendmsg) : List Nat :=
  u32le sm.data.length ++ sm.data

/-- Contribution of one message to `totalSize` in the slurp loop:
`totalSize += 4 + len(sm.data)`. -/
def frameSize (sm : sendmsg) : Nat :=
  4 + sm.data.length

/-- Total `totalSize` contribution of a list of messages. -/
def listSize (ms : List sendmsg) : Nat :=
  (ms.map frameSize).sum

def messageBatchSoftLimit : Nat := 10000000

/-- Appending one frame to the destination's buffer in the `batches` map
(`batches[sm.to]` gets the frame; other buffers are untouched; a missing
buffer is the empty buffer). -/
def writeFrame (batches : Nat → List Nat) (sm : sendmsg) : Nat → List Nat :=
  fun d => if d = sm.to' then batches d ++ frame sm else batches d

/-- The `slurp_loop` of `BatchAndSendMessages`: `sm` is the message just
received, `queue` the messages still pending on `n.messages`. Each message is
framed into its destination's buffer; the loop stops when the soft size limit
is exceeded (leaving `queue` pending) or the queue is momentarily empty.
Returns the updated batches and the messages left unconsumed this round. -/
def slurpLoop (queue : List sendmsg) (sm : sendmsg) (totalSize : Nat)
    (batches : Nat → List Nat) : (Nat → List Nat) × List sendmsg :=
  let b' := writeFrame batches sm
  let t' := totalSize + 4 + sm.data.length
  if t' > messageBatchSoftLimit then (b', queue)
  else
    match queue with
    | [] => (b', [])
    | q :: qs => slurpLoop qs q t' b'

/-! ## Linearizable read-index loop (`readIndex`, `RunReadIndexLoop`)

`readIndex` generates a fresh 8-byte token `activeRctx`, calls
`Raft().ReadIndex`, then loops on a `select` over the closer, the read-state
channel and the 3-second timeout. The events that resolve successive
iterations of that `select` are passed explicitly as a list. -/

/-- A `raft.ReadState`: the echoed correlation token and the committed
index. -/
structure ReadState where
  requestCtx : List Nat
  index : Nat
deriving DecidableEq

/-- One resolution of the `select` inside `readIndex`: the closer fired, a
read state arrived, or the 3-second context timed out. -/
inductive RIEvent where
  | closed
  | readState (rs : ReadState)
  | timedOut
deriving DecidableEq

/-- Outcome of one `readIndex` attempt. `internalRetry` is the
`errInternalRetry` produced on timeout; `callErr` stands for an error from
the `Raft().ReadIndex` call itself. -/
inductive ReadIndexResult where
  | ok (index : Nat)
  | closerErr
  | callErr
  | internalRetry
deriving DecidableEq

/-- The `again:` select loop of `readIndex`: a read state whose token does
not equal `activeRctx` is discarded and waiting continues (`goto again`); a
matching one returns its index; the closer returns an error; the timeout
returns `errInternalRetry`. `none` means the events ran out with the loop
still blocked. -/
def readIndexWait (activeRctx : List Nat) : List RIEvent → Option ReadIndexResult
  | [] => none
  | RIEvent.closed :: _ => some ReadIndexResult.closerErr
  | RIEvent.readState rs :: rest =>
      if rs.requestCtx = activeRctx then some (ReadIndexResult.ok rs.index)
      else readIndexWait activeRctx rest
  | RIEvent.timedOut :: _ => some ReadIndexResult.internalRetry

/-- One full `readIndex` attempt: its fresh token, whether the
`Raft().ReadIndex` call itself failed, and the select-resolving events. -/
structure Attempt where
  rctx : List Nat
  callFailed : Bool
  events : List RIEvent

def runAttempt (a : Attempt) : Option ReadIndexResult :=
  if a.callFailed then some ReadIndexResult.callErr
  else readIndexWait a.rctx a.events

/-- The retry loop inside `RunReadIndexLoop`'s request branch: keep calling
`readIndex` while it returns `errInternalRetry`. -/
def roundResult : List Attempt → Option ReadIndexResult
  | [] => none
  | a :: rest =>
      match runAttempt a with
      | some ReadIndexResult.internalRetry => roundResult rest
      | none => none
      | some r => some r

/-- Delivery phase of `RunReadIndexLoop`: once `readIndex` returns without
`errInternalRetry`, every queued request receives the resulting index (the
index on success, `0` after `index = 0` on any other error), and the batch
is cleared (`requests = requests[:0]`). Requests are identified by their
one-shot channel; the first component lists (channel, delivered value). -/
def processBatch (requests : List Nat) (attempts : List Attempt) :
    Option (List (Nat × Nat) × List Nat) :=
  match roundResult attempts with
  | none => none
  | some (ReadIndexResult.ok i) => some (requests.map (fun q => (q, i)), [])
  | some _ => some (requests.map (fun q => (q, 0)), [])

/-! ## Configuration-change coordination (`proposeConfChange`, `AddToCluster`,
`ProposePeerRemoval` retry loop)

`proposeConfChange` derives a 3-second sub-context `cctx` from `ctx`, stores a
one-shot channel, calls `Raft().ProposeConfChange(cctx, pb)` and then selects
over the channel, `ctx.Done()` and `cctx.Done()`. Which of these resolves the
call is passed as data; error values are the inductive `Err`. -/

/-- The distinguished error values flowing through this file:
`errInternalRetry`, a context error, an engine error carrying its message,
`ErrNoNode`, and `errReadIndex`. `none : Option Err` is Go's `nil` error. -/
inductive Err where
  | internalRetry
  | ctxCanceled
  | engineErr (msg : String)
  | noNode
  | readIndexErr
deriving DecidableEq

/-- Which arm of `proposeConfChange`'s `select` resolves the wait: the stored
channel delivers the engine's completion result (`none` = success), the
caller's `ctx` is done, or the 3-second sub-context `cctx` is done. -/
inductive ResolveEvent where
  | engineCallback (e : Option String)
  | callerCtxDone
  | subDeadlineDone
deriving DecidableEq

/-- One execution of `proposeConfChange`: either the
`Raft().ProposeConfChange(cctx, pb)` call itself failed (recording whether
`cctx.Err() != nil` at that moment, i.e. the sub-deadline had expired), or it
succeeded and the `select` was resolved by the given event. -/
inductive ProposeStep where
  | proposeFailed (cctxDone : Bool) (msg : String)
  | proposeOk (r : ResolveEvent)
deriving DecidableEq

/-- `proposeConfChange`, as a function of what resolved it. -/
def proposeConfChange : ProposeStep → Option Err
  | ProposeStep.proposeFailed true _ => some Err.internalRetry
  | ProposeStep.proposeFailed false msg => some (Err.engineErr msg)
  | ProposeStep.proposeOk (ResolveEvent.engineCallback none) => none
  | ProposeStep.proposeOk (ResolveEvent.engineCallback (some msg)) =>
      some (Err.engineErr msg)
  | ProposeStep.proposeOk ResolveEvent.callerCtxDone => some Err.ctxCanceled
  | ProposeStep.proposeOk ResolveEvent.subDeadlineDone => some Err.internalRetry

/-- The `for err == errInternalRetry` loop shared by `AddToCluster` and
`ProposePeerRemoval`: each list element is one `proposeConfChange` execution;
the loop returns the first non-retryable result. `none` means every listed
attempt was retryable and the loop is still running. -/
def confChangeLoop : List ProposeStep → Option (Option Err)
  | [] => none
  | s :: rest =>
      match proposeConfChange s with
      | some Err.internalRetry => confChangeLoop rest
      | r => some r

/-! ## `WaitLinearizableRead` -/

/-- Resolution of the first `select`: the request was accepted onto
`n.requestCh`, or `ctx.Done()` fired first. -/
inductive HandoffResult where
  | accepted
  | ctxDone
deriving DecidableEq

/-- Resolution of the second `select`: the coordinator delivered an index on
`indexCh`, or `ctx.Done()` fired first. -/
inductive IndexWait where
  | delivered (i : Nat)
  | ctxDone
deriving DecidableEq

/-- `WaitLinearizableRead(ctx)`, as a function of the two select
resolutions; `waitForMark i` is the (external) result of
`n.Applied.WaitForMark(ctx, i)`. -/
def waitLinearizableRead (h : HandoffResult) (w : IndexWait)
    (waitForMark : Nat → Option Err) : Option Err :=
  match h with
  | HandoffResult.ctxDone => some Err.ctxCanceled
  | HandoffResult.accepted =>
      match w with
      | IndexWait.ctxDone => some Err.ctxCanceled
      | IndexWait.delivered 0 => some Err.readIndexErr
      | IndexWait.delivered i => waitForMark i

/-! ## Peer directory (`Peer`, `SetPeer`, `DeletePeer`, `Connect`) and
`ProposePeerRemoval`

The `peers` map is an association list with unique keys; `n.Id` and
`n.RaftContext.Id` are both `rc.Id` and are modelled as the single field
`id`. `raftSet` says whether `SetRaft` has been called (`Raft() != nil`). -/

structure NodeState where
  id : Nat
  myAddr : String
  peers : List (Nat × String)
  raftSet : Bool
deriving DecidableEq

/-- `n.Peer(pid)`: look the peer up in the directory. -/
def peer (s : NodeState) (pid : Nat) : Option String :=
  List.lookup pid s.peers

inductive ConfChangeType where
  | addNode
  | removeNode
deriving DecidableEq

structure ConfChange where
  typ : ConfChangeType
  nodeID : Nat
deriving DecidableEq

/-- What `ProposePeerRemoval` does before (or instead of) entering the
propose loop. -/
inductive RemovalOutcome where
  | noNode
  | notPartOfGroup (id : Nat)
  | propose (cc : ConfChange)
deriving DecidableEq

/-- `ProposePeerRemoval(ctx, id)` up to the propose loop: `ErrNoNode` when no
raft handle is set; "not part of group" when `id` is neither a known peer nor
the local id; otherwise a `ConfChangeRemoveNode` for `id` is proposed. -/
def proposePeerRemoval (s : NodeState) (id : Nat) : RemovalOutcome :=
  if ¬ s.raftSet then RemovalOutcome.noNode
  else if (peer s id).isNone ∧ id ≠ s.id then RemovalOutcome.notPartOfGroup id
  else RemovalOutcome.propose ⟨ConfChangeType.removeNode, id⟩

/-! ## `DoneConfChange`

`confChanges` maps pending conf-change ids to one-shot channels; channels are
identified by a number. The second component of the result lists the
(channel, error) deliveries performed — Go's `ch <- err`. `delete` on a Go
map removes the key entirely, modelled by filtering it out. -/

def doneConfChange (m : List (Nat × Nat)) (id : Nat) (e : Option Err) :
    List (Nat × Nat) × List (Nat × Option Err) :=
  match List.lookup id m with
  | none => (m, [])
  | some ch => (m.filter (fun p => p.1 != id), [(ch, e)])

/-! ## Send phase of `BatchAndSendMessages` (per destination)

After the slurp phase, each non-empty buffer is either handed to
`doSendMessage` (and reset) or — when the peer has no address or no healthy
pool — skipped for the round, with a warning only on the first consecutive
failure (`failedConn`). The failure branch `continue`s without `buf.Reset()`,
so the buffer's bytes are retained. -/

structure SendOutcome where
  buf : List Nat
  failed : Bool
  sent : Option (List Nat)
  warned : Bool
deriving DecidableEq

/-- Body of `for to, buf := range batches` for one destination: `addrOpt` is
`n.Peer(to)`, `poolOk` whether `Get().Get(addr)` succeeded, `buf` the
destination's buffer, `failed` the destination's `failedConn` flag. -/
def sendBatch (addrOpt : Option String) (poolOk : Bool) (buf : List Nat)
    (failed : Bool) : SendOutcome :=
  if buf = [] then ⟨buf, failed, none, false⟩
  else if addrOpt.isNone || !poolOk then ⟨buf, true, none, !failed⟩
  else ⟨[], false, some buf, false⟩

/-! ## Peer-directory operations (`Connect`, `SetPeer`, `DeletePeer`) -/

inductive PeerOp where
  | connect (pid : Nat) (addr : String)
  | setPeer (pid : Nat) (addr : String)
  | deletePeer (pid : Nat)
deriving DecidableEq

/-- The Go map write `n.peers[pid] = addr`: upsert keeping keys unique. -/
def peersUpsert (peers : List (Nat × String)) (pid : Nat) (addr : String) :
    List (Nat × String) :=
  (pid, addr) :: peers.filter (fun p => p.1 != pid)

/-- One public peer-directory operation. `SetPeer` asserts `addr != ""`
(`x.AssertTruef`; `none` = the process halts) and has NO self-id guard.
`Connect` returns early for the node's own id or an unchanged address; its
remaining branches (same host as me, or a fresh address) both end in
`SetPeer(pid, addr)`. `DeletePeer` ignores the node's own id. -/
def applyPeerOp (s : NodeState) : PeerOp → Option NodeState
  | PeerOp.setPeer pid addr =>
      if addr = "" then none
      else some { s with peers := peersUpsert s.peers pid addr }
  | PeerOp.deletePeer pid =>
      if pid = s.id then some s
      else some { s with peers := s.peers.filter (fun p => p.1 != pid) }
  | PeerOp.connect pid addr =>
      if pid = s.id then some s
      else if peer s pid = some addr then some s
      else if addr = "" then none
      else some { s with peers := peersUpsert s.peers pid addr }

/-- Running a sequence of peer-directory operations; `none` as soon as an
assertion halts the process. -/
def applyPeerOps (s : NodeState) : List PeerOp → Option NodeState
  | [] => some s
  | op :: ops =>
      match applyPeerOp s op with
      | none => none
      | some s' => applyPeerOps s' ops

/-- Whether an operation is a direct `SetPeer` for the given (own) id. -/
def setsSelfPeer (selfId : Nat) : PeerOp → Bool
  | PeerOp.setPeer pid _ => pid == selfId
  | _ => false

/-! ## `Send` self-assertion -/

/-- `Send(m)`: first asserts `n.Id != m.To` ("Sending message to itself"),
halting (`none`) with the queue untouched on violation; otherwise the
marshalled message is appended to the outbound queue (the blocking channel
send `n.messages <- sendmsg{...}`, which never drops). -/
def send (selfId : Nat) (queue : List sendmsg) (m : sendmsg) :
    Option (List sendmsg) :=
  if selfId = m.to' then none
  else some (queue ++ [m])

/-! ## Theorems -/

theorem listSize_cons (m : sendmsg) (ms : List sendmsg) :
    listSize (m :: ms) = frameSize m + listSize ms := by
  simp [listSize]

/-- When everything fits under the soft limit, the slurp loop consumes the
whole queue and each destination's buffer grows by exactly the frames of its
messages, in arrival order. -/
theorem slurpLoop_complete (queue : List sendmsg) : ∀ (sm : sendmsg) (t : Nat)
    (b : Nat → List Nat),
    t + frameSize sm + listSize queue ≤ messageBatchSoftLimit →
    (slurpLoop queue sm t b).2 = [] ∧
    ∀ d, (slurpLoop queue sm t b).1 d =
      b d ++ (((sm :: queue).filter (fun s => s.to' == d)).map frame).flatten := by
  induction queue with
  | nil =>
    intro sm t b h
    have hle : ¬ (t + 4 + sm.data.length > messageBatchSoftLimit) := by
      simp only [frameSize, listSize, List.map_nil, List.sum_nil] at h
      omega
    have hstep : slurpLoop [] sm t b = (writeFrame b sm, []) := by
      simp [slurpLoop, hle]
    rw [hstep]
    refine ⟨rfl, fun d => ?_⟩
    by_cases hd : d = sm.to'
    · subst hd
      simp [writeFrame, List.filter_cons]
    · have hbeq : (sm.to' == d) = false := beq_eq_false_iff_ne.mpr (Ne.symm hd)
      simp [writeFrame, hd, List.filter_cons, hbeq]
  | cons q qs ih =>
    intro sm t b h
    have hq4 : 4 ≤ frameSize q := by simp [frameSize]
    rw [listSize_cons] at h
    have hle : ¬ (t + 4 + sm.data.length > messageBatchSoftLimit) := by
      simp only [frameSize] at h hq4
      omega
    have hstep : slurpLoop (q :: qs) sm t b =
        slurpLoop qs q (t + 4 + sm.data.length) (writeFrame b sm) := by
      simp [slurpLoop, hle]
    have hrec := ih q (t + 4 + sm.data.length) (writeFrame b sm)
      (by simp only [frameSize] at h ⊢; omega)
    rw [hstep]
    refine ⟨hrec.1, fun d => ?_⟩
    rw [hrec.2 d]
    by_cases hd : d = sm.to'
    · subst hd
      simp [writeFrame, List.filter_cons, List.append_assoc]
    · have hbeq : (sm.to' == d) = false := beq_eq_false_iff_ne.mpr (Ne.symm hd)
      simp [writeFrame, hd, List.filter_cons, hbeq]

/-- C1: a full drain round (everything fitting under the soft limit) ships,
for each destination, exactly the concatenation in arrival order of one
length-prefixed frame per enqueued message, and leaves nothing behind. -/
theorem send_batch_framing (m : sendmsg) (ms : List sendmsg)
    (h : listSize (m :: ms) ≤ messageBatchSoftLimit) :
    (slurpLoop ms m 0 (fun _ => [])).2 = [] ∧
    ∀ d, (slurpLoop ms m 0 (fun _ => [])).1 d =
      (((m :: ms).filter (fun s => s.to' == d)).map frame).flatten := by
  rw [listSize_cons] at h
  have hc := slurpLoop_complete ms m 0 (fun _ => []) (by omega)
  exact ⟨hc.1, fun d => by simpa using hc.2 d⟩

/-- Witness for C1 at the spec's end-to-end example: enqueue
`{to:2,"a"}, {to:2,"bb"}, {to:3,"c"}`; destination 2 gets frames
`[1,"a"][2,"bb"]` and destination 3 gets `[1,"c"]`. -/
theorem send_batch_framing_witness :
    listSize [⟨2, [97]⟩, ⟨2, [98, 98]⟩, ⟨3, [99]⟩] ≤ messageBatchSoftLimit ∧
    (slurpLoop [⟨2, [98, 98]⟩, ⟨3, [99]⟩] ⟨2, [97]⟩ 0 (fun _ => [])).2 = [] ∧
    (slurpLoop [⟨2, [98, 98]⟩, ⟨3, [99]⟩] ⟨2, [97]⟩ 0 (fun _ => [])).1 2 =
      [1, 0, 0, 0, 97, 2, 0, 0, 0, 98, 98] ∧
    (slurpLoop [⟨2, [98, 98]⟩, ⟨3, [99]⟩] ⟨2, [97]⟩ 0 (fun _ => [])).1 3 =
      [1, 0, 0, 0, 99] := by
  have h : listSize [⟨2, [97]⟩, ⟨2, [98, 98]⟩, ⟨3, [99]⟩] ≤ messageBatchSoftLimit := by
    decide
  obtain ⟨h1, h2⟩ := send_batch_framing ⟨2, [97]⟩ [⟨2, [98, 98]⟩, ⟨3, [99]⟩] h
  refine ⟨h, h1, ?_, ?_⟩
  · rw [h2 2]; rfl
  · rw [h2 3]; rfl

theorem readIndexWait_skip_mismatch (rctx : List Nat) (mis evs : List RIEvent)
    (hmis : ∀ e ∈ mis, ∃ rs, e = RIEvent.readState rs ∧ rs.requestCtx ≠ rctx) :
    readIndexWait rctx (mis ++ evs) = readIndexWait rctx evs := by
  induction mis with
  | nil => rfl
  | cons e rest ih =>
    obtain ⟨rs, he, hne⟩ := hmis e (List.mem_cons_self e rest)
    subst he
    simp only [List.cons_append, readIndexWait, if_neg hne]
    exact ih (fun e' he' => hmis e' (List.mem_cons_of_mem _ he'))

theorem roundResult_skip_retries (retries rest : List Attempt)
    (hret : ∀ a ∈ retries, runAttempt a = some ReadIndexResult.internalRetry) :
    roundResult (retries ++ rest) = roundResult rest := by
  induction retries with
  | nil => rfl
  | cons a tl ih =>
    have ha := hret a (List.mem_cons_self a tl)
    simp only [List.cons_append, roundResult, ha]
    exact ih (fun a' ha' => hret a' (List.mem_cons_of_mem _ ha'))

/-- C2: a read-index round over a non-empty batch resolves only from a read
state whose token matches the round's token — mismatched events are skipped
and unblock nobody — and on resolution every request in the batch receives
exactly one value (the matching event's index on success, 0 on a
non-retryable failure such as the closer firing), after which the batch is
cleared. Attempts that end in `errInternalRetry` deliver nothing. -/
theorem readIndexLoop_round (rctx : List Nat) (mis rest : List RIEvent) (i : Nat)
    (requests : List Nat) (retries : List Attempt)
    (hmis : ∀ e ∈ mis, ∃ rs, e = RIEvent.readState rs ∧ rs.requestCtx ≠ rctx)
    (hret : ∀ a ∈ retries, runAttempt a = some ReadIndexResult.internalRetry) :
    processBatch requests
        (retries ++ [⟨rctx, false, mis ++ RIEvent.readState ⟨rctx, i⟩ :: rest⟩]) =
      some (requests.map (fun q => (q, i)), []) ∧
    processBatch requests (retries ++ [⟨rctx, false, mis ++ [RIEvent.closed]⟩]) =
      some (requests.map (fun q => (q, 0)), []) := by
  have h1 := readIndexWait_skip_mismatch rctx mis
    (RIEvent.readState ⟨rctx, i⟩ :: rest) hmis
  have h2 := readIndexWait_skip_mismatch rctx mis [RIEvent.closed] hmis
  have h3 := roundResult_skip_retries retries
    [⟨rctx, false, mis ++ RIEvent.readState ⟨rctx, i⟩ :: rest⟩] hret
  have h4 := roundResult_skip_retries retries
    [⟨rctx, false, mis ++ [RIEvent.closed]⟩] hret
  constructor
  · simp [processBatch, h3, roundResult, runAttempt, h1, readIndexWait]
  · simp [processBatch, h4, roundResult, runAttempt, h2, readIndexWait]

/-- Witness for C2: one timed-out attempt is retried; in the retry, a stale
read state with the wrong token is skipped, the matching one delivers index
42 to both queued requests, and the batch is cleared. -/
theorem readIndexLoop_round_witness :
    processBatch [100, 101]
        [⟨[9, 9, 9, 9, 9, 9, 9, 9], false, [RIEvent.timedOut]⟩,
         ⟨[1, 2, 3, 4, 5, 6, 7, 8], false,
          [RIEvent.readState ⟨[0, 0, 0, 0, 0, 0, 0, 0], 7⟩,
           RIEvent.readState ⟨[1, 2, 3, 4, 5, 6, 7, 8], 42⟩]⟩] =
      some ([(100, 42), (101, 42)], []) := by
  have h := (readIndexLoop_round [1, 2, 3, 4, 5, 6, 7, 8]
      [RIEvent.readState ⟨[0, 0, 0, 0, 0, 0, 0, 0], 7⟩] [] 42 [100, 101]
      [⟨[9, 9, 9, 9, 9, 9, 9, 9], false, [RIEvent.timedOut]⟩]
      (by
        intro e he
        simp only [List.mem_singleton] at he
        subst he
        exact ⟨⟨[0, 0, 0, 0, 0, 0, 0, 0], 7⟩, rfl, by decide⟩)
      (by
        intro a ha
        simp only [List.mem_singleton] at ha
        subst ha
        rfl)).1
  simpa using h

/-- C3: `proposeConfChange` returns `errInternalRetry` exactly when the
3-second sub-context resolves it — a failed propose call with `cctx` already
done, or the `select` taken on `cctx.Done()`; a propose failure with `cctx`
still live is returned as the terminal engine error, and an engine-callback
result is returned verbatim (success as `nil`, failure as its own error). -/
theorem proposeConfChange_retry_iff (s : ProposeStep) :
    (proposeConfChange s = some Err.internalRetry ↔
      (∃ m, s = ProposeStep.proposeFailed true m) ∨
        s = ProposeStep.proposeOk ResolveEvent.subDeadlineDone) ∧
    (∀ m, proposeConfChange (ProposeStep.proposeFailed false m) =
      some (Err.engineErr m)) ∧
    (proposeConfChange (ProposeStep.proposeOk (ResolveEvent.engineCallback none)) =
      none) ∧
    (∀ m, proposeConfChange
        (ProposeStep.proposeOk (ResolveEvent.engineCallback (some m))) =
      some (Err.engineErr m)) := by
  refine ⟨?_, fun m => rfl, rfl, fun m => rfl⟩
  constructor
  · intro h
    match s with
    | ProposeStep.proposeFailed true m => exact Or.inl ⟨m, rfl⟩
    | ProposeStep.proposeFailed false m => simp [proposeConfChange] at h
    | ProposeStep.proposeOk (ResolveEvent.engineCallback none) =>
        simp [proposeConfChange] at h
    | ProposeStep.proposeOk (ResolveEvent.engineCallback (some m)) =>
        simp [proposeConfChange] at h
    | ProposeStep.proposeOk ResolveEvent.callerCtxDone =>
        simp [proposeConfChange] at h
    | ProposeStep.proposeOk ResolveEvent.subDeadlineDone => exact Or.inr rfl
  · rintro (⟨m, rfl⟩ | rfl) <;> rfl

/-- Witness for C3: the sub-deadline arm yields `errInternalRetry`; a
successful engine callback yields `nil`. -/
theorem proposeConfChange_retry_iff_witness :
    proposeConfChange (ProposeStep.proposeOk ResolveEvent.subDeadlineDone) =
      some Err.internalRetry ∧
    proposeConfChange (ProposeStep.proposeOk (ResolveEvent.engineCallback none)) =
      none :=
  ⟨(proposeConfChange_retry_iff
      (ProposeStep.proposeOk ResolveEvent.subDeadlineDone)).1.mpr (Or.inr rfl),
   (proposeConfChange_retry_iff
      (ProposeStep.proposeOk ResolveEvent.subDeadlineDone)).2.2.1⟩

theorem confChangeLoop_no_retry (steps : List ProposeStep) (r : Option Err)
    (h : confChangeLoop steps = some r) : r ≠ some Err.internalRetry := by
  induction steps with
  | nil => simp [confChangeLoop] at h
  | cons s rest ih =>
    by_cases hs : proposeConfChange s = some Err.internalRetry
    · rw [confChangeLoop, hs] at h
      exact ih h
    · rw [confChangeLoop] at h
      match hps : proposeConfChange s with
      | some Err.internalRetry => exact absurd hps hs
      | none => rw [hps] at h; cases h; simp
      | some Err.ctxCanceled => rw [hps] at h; cases h; simp
      | some (Err.engineErr m) => rw [hps] at h; cases h; simp
      | some Err.noNode => rw [hps] at h; cases h; simp
      | some Err.readIndexErr => rw [hps] at h; cases h; simp

/-- C4: the caller-facing retry loop never surfaces `errInternalRetry`, and
once an attempt is resolved by the caller's context being done, the loop
stops right there — the caller context's error is returned and the remaining
hypothetical attempts (`post`) are never made. -/
theorem confChange_caller_canceled (steps pre post : List ProposeStep)
    (r : Option Err)
    (hpre : ∀ s ∈ pre, proposeConfChange s = some Err.internalRetry)
    (hr : confChangeLoop steps = some r) :
    r ≠ some Err.internalRetry ∧
    confChangeLoop (pre ++ ProposeStep.proposeOk ResolveEvent.callerCtxDone :: post) =
      some (some Err.ctxCanceled) := by
  refine ⟨confChangeLoop_no_retry steps r hr, ?_⟩
  induction pre with
  | nil => rfl
  | cons s tl ih =>
    have hs := hpre s (List.mem_cons_self s tl)
    simp only [List.cons_append, confChangeLoop, hs]
    exact ih (fun s' hs' => hpre s' (List.mem_cons_of_mem _ hs'))

/-- Witness for C4: a sub-deadline retry followed by caller cancellation
returns the context error, ignoring a would-be later engine success. -/
theorem confChange_caller_canceled_witness :
    confChangeLoop
        [ProposeStep.proposeOk ResolveEvent.subDeadlineDone,
         ProposeStep.proposeOk ResolveEvent.callerCtxDone,
         ProposeStep.proposeOk (ResolveEvent.engineCallback none)] =
      some (some Err.ctxCanceled) := by
  have h := confChange_caller_canceled
    [ProposeStep.proposeOk (ResolveEvent.engineCallback none)]
    [ProposeStep.proposeOk ResolveEvent.subDeadlineDone]
    [ProposeStep.proposeOk (ResolveEvent.engineCallback none)]
    none
    (by
      intro s hs
      simp only [List.mem_singleton] at hs
      subst hs
      rfl)
    rfl
  simpa using h.2

/-- C5: `WaitLinearizableRead` returns the context error when the handoff or
the index wait is cut short by `ctx`, the dedicated `errReadIndex` when the
delivered index is 0, and `Applied.WaitForMark(ctx, index)`'s result for a
nonzero index. -/
theorem waitLinearizableRead_cases (waitForMark : Nat → Option Err)
    (w : IndexWait) (i : Nat) (hi : i ≠ 0) :
    waitLinearizableRead HandoffResult.ctxDone w waitForMark =
      some Err.ctxCanceled ∧
    waitLinearizableRead HandoffResult.accepted IndexWait.ctxDone waitForMark =
      some Err.ctxCanceled ∧
    waitLinearizableRead HandoffResult.accepted (IndexWait.delivered 0)
      waitForMark = some Err.readIndexErr ∧
    waitLinearizableRead HandoffResult.accepted (IndexWait.delivered i)
      waitForMark = waitForMark i := by
  refine ⟨rfl, rfl, rfl, ?_⟩
  match i, hi with
  | Nat.succ k, _ => rfl

/-- Witness for C5 at index 7 with a concrete `WaitForMark` result. -/
theorem waitLinearizableRead_cases_witness :
    waitLinearizableRead HandoffResult.ctxDone IndexWait.ctxDone
      (fun _ => none) = some Err.ctxCanceled ∧
    waitLinearizableRead HandoffResult.accepted IndexWait.ctxDone
      (fun _ => none) = some Err.ctxCanceled ∧
    waitLinearizableRead HandoffResult.accepted (IndexWait.delivered 0)
      (fun _ => none) = some Err.readIndexErr ∧
    waitLinearizableRead HandoffResult.accepted (IndexWait.delivered 7)
      (fun _ => none) = none :=
  waitLinearizableRead_cases (fun _ => none) IndexWait.ctxDone 7 (by decide)

/-- C6: with a raft handle set, `ProposePeerRemoval` fails with "not part of
group" (proposing nothing) exactly when `id` has no directory entry and is
not the local id; in particular self-removal with no directory entry reaches
the propose path with a `ConfChangeRemoveNode`. -/
theorem proposePeerRemoval_not_part_iff (s : NodeState) (id : Nat)
    (hr : s.raftSet = true) :
    (proposePeerRemoval s id = RemovalOutcome.notPartOfGroup id ↔
      peer s id = none ∧ id ≠ s.id) ∧
    proposePeerRemoval s s.id =
      RemovalOutcome.propose ⟨ConfChangeType.removeNode, s.id⟩ := by
  constructor
  · constructor
    · intro h
      by_cases hc : (peer s id).isNone ∧ id ≠ s.id
      · exact ⟨Option.isNone_iff_eq_none.mp hc.1, hc.2⟩
      · simp [proposePeerRemoval, hr, hc] at h
        exact h
    · intro ⟨h1, h2⟩
      simp [proposePeerRemoval, hr, h1, h2]
  · have hc : ¬ ((peer s s.id).isNone ∧ s.id ≠ s.id) := by simp
    simp [proposePeerRemoval, hr, hc]

/-- Witness for C6: node 1 with an empty directory; removing unknown node 2
fails with "not part of group", removing itself reaches the propose path. -/
theorem proposePeerRemoval_not_part_iff_witness :
    proposePeerRemoval ⟨1, "me", [], true⟩ 2 = RemovalOutcome.notPartOfGroup 2 ∧
    proposePeerRemoval ⟨1, "me", [], true⟩ 1 =
      RemovalOutcome.propose ⟨ConfChangeType.removeNode, 1⟩ := by
  have h := proposePeerRemoval_not_part_iff ⟨1, "me", [], true⟩ 2 rfl
  exact ⟨h.1.mpr ⟨rfl, by decide⟩, h.2⟩

theorem lookup_filter_ne {β : Type} (m : List (Nat × β)) (id : Nat) :
    List.lookup id (m.filter (fun p => p.1 != id)) = none := by
  induction m with
  | nil => rfl
  | cons p tl ih =>
    obtain ⟨k, v⟩ := p
    by_cases hk : k = id
    · simp [List.filter_cons, hk, ih]
    · have hb : (k != id) = true := by simp [hk]
      have hb2 : (id == k) = false := beq_eq_false_iff_ne.mpr (Ne.symm hk)
      simp [List.filter_cons, hb, List.lookup, hb2, ih]

/-- C7: if `id` is pending, `DoneConfChange(id, err)` removes the entry and
delivers `err` exactly once on the stored channel; a second callback for the
same `id` (and any callback for an absent `id`) changes nothing and delivers
nothing, so a repeated completion can never double-deliver. -/
theorem doneConfChange_once (m : List (Nat × Nat)) (id : Nat)
    (e e' : Option Err) :
    (∀ ch, List.lookup id m = some ch →
      doneConfChange m id e = (m.filter (fun p => p.1 != id), [(ch, e)]) ∧
      doneConfChange (doneConfChange m id e).1 id e' =
        ((doneConfChange m id e).1, [])) ∧
    (List.lookup id m = none → doneConfChange m id e = (m, [])) := by
  constructor
  · intro ch hch
    have h1 : doneConfChange m id e =
        (m.filter (fun p => p.1 != id), [(ch, e)]) := by
      simp [doneConfChange, hch]
    refine ⟨h1, ?_⟩
    rw [h1]
    simp [doneConfChange, lookup_filter_ne]
  · intro h
    simp [doneConfChange, h]

/-- Witness for C7: completing pending id 5 (channel 7) delivers once and
removes the entry; repeating the callback delivers nothing. -/
theorem doneConfChange_once_witness :
    doneConfChange [(5, 7), (6, 8)] 5 none = ([(6, 8)], [(7, none)]) ∧
    doneConfChange [(6, 8)] 5 (some Err.ctxCanceled) = ([(6, 8)], []) := by
  have h := (doneConfChange_once [(5, 7), (6, 8)] 5 none
    (some Err.ctxCanceled)).1 7 rfl
  exact ⟨by simpa using h.1, by simpa using h.2⟩

/-- Counterexample to C8 as stated: the failure branch `continue`s without
`buf.Reset()`, so the buffered frame for an unreachable destination is NOT
discarded — it stays in the buffer and is shipped in a later round once the
destination is reachable again. -/
theorem sendBatch_retained_counterexample :
    (sendBatch none true [1, 0, 0, 0, 97] false).buf = [1, 0, 0, 0, 97] ∧
    (sendBatch none true [1, 0, 0, 0, 97] false).warned = true ∧
    (sendBatch (some "addr") true
        (sendBatch none true [1, 0, 0, 0, 97] false).buf false).sent =
      some [1, 0, 0, 0, 97] :=
  ⟨rfl, rfl, rfl⟩

/-- C8 (amended): for a non-empty buffer whose destination has no address or
no healthy pool, the round warns exactly when this is the first consecutive
failure, sends nothing, and RETAINS the buffered bytes (they are carried into
a later round); once reachable, the whole accumulated buffer is sent and
reset and the failure flag cleared. -/
theorem sendBatch_failure_retains (addrOpt : Option String) (poolOk : Bool)
    (buf : List Nat) (failed : Bool) (a : String) (hbuf : buf ≠ [])
    (hfail : (addrOpt.isNone || !poolOk) = true) :
    sendBatch addrOpt poolOk buf failed = ⟨buf, true, none, !failed⟩ ∧
    sendBatch (some a) true buf failed = ⟨[], false, some buf, false⟩ := by
  constructor
  · simp [sendBatch, hbuf, hfail]
  · simp [sendBatch, hbuf]

/-- Witness for C8 (amended) on a one-frame buffer. -/
theorem sendBatch_failure_retains_witness :
    sendBatch none true [5] false = ⟨[5], true, none, true⟩ ∧
    sendBatch (some "x") true [5] false = ⟨[], false, some [5], false⟩ :=
  sendBatch_failure_retains none true [5] false "x" (by decide) rfl

/-- Counterexample to C9 as stated: `SetPeer` has no self-id guard, so from a
fresh node with id 1 the single operation `SetPeer(1, "addr")` stores an
entry for the node's own id in `peers`. -/
theorem setPeer_self_stored :
    applyPeerOps ⟨1, "me", [], false⟩ [PeerOp.setPeer 1 "addr"] =
      some ⟨1, "me", [(1, "addr")], false⟩ ∧
    peer ⟨1, "me", [(1, "addr")], false⟩ 1 = some "addr" :=
  ⟨rfl, rfl⟩

theorem lookup_none_of_filter {β : Type} (m : List (Nat × β)) (k : Nat)
    (p : Nat × β → Bool) (h : List.lookup k m = none) :
    List.lookup k (m.filter p) = none := by
  induction m with
  | nil => rfl
  | cons q tl ih =>
    obtain ⟨k', v⟩ := q
    by_cases hk : (k == k') = true
    · simp [List.lookup, hk] at h
    · rw [List.lookup] at h
      simp only [hk, Bool.false_eq_true, if_false] at h
      by_cases hp : p (k', v) = true
      · simp [List.filter_cons, hp, List.lookup, hk, ih h]
      · simp [List.filter_cons, hp, ih h]

theorem applyPeerOp_no_self (s s' : NodeState) (op : PeerOp)
    (hself : List.lookup s.id s.peers = none)
    (hop : setsSelfPeer s.id op = false)
    (h : applyPeerOp s op = some s') :
    s'.id = s.id ∧ List.lookup s'.id s'.peers = none := by
  match op with
  | PeerOp.setPeer pid addr =>
    have hpid : (pid == s.id) = false := hop
    by_cases ha : addr = ""
    · simp [applyPeerOp, ha] at h
    · simp only [applyPeerOp, ha, if_neg, if_false] at h
      cases h
      refine ⟨rfl, ?_⟩
      simp only [peersUpsert, List.lookup]
      have hne : pid ≠ s.id := beq_eq_false_iff_ne.mp hpid
      have hpid2 : (s.id == pid) = false := beq_eq_false_iff_ne.mpr (Ne.symm hne)
      simp only [hpid2, Bool.false_eq_true, if_false]
      exact lookup_none_of_filter _ _ _ hself
  | PeerOp.deletePeer pid =>
    by_cases hp : pid = s.id
    · simp only [applyPeerOp, hp, if_pos] at h
      cases h
      exact ⟨rfl, hself⟩
    · simp only [applyPeerOp, hp, if_false] at h
      cases h
      exact ⟨rfl, lookup_none_of_filter _ _ _ hself⟩
  | PeerOp.connect pid addr =>
    by_cases hp : pid = s.id
    · simp only [applyPeerOp, hp, if_pos] at h
      cases h
      exact ⟨rfl, hself⟩
    · by_cases hc : peer s pid = some addr
      · simp only [applyPeerOp, hp, if_false, hc, if_pos] at h
        cases h
        exact ⟨rfl, hself⟩
      · by_cases ha : addr = ""
        · exfalso
          rw [ha] at hc
          simp [applyPeerOp, hp, hc, ha] at h
        · simp only [applyPeerOp, hp, if_false, hc, ha] at h
          cases h
          refine ⟨rfl, ?_⟩
          simp only [peersUpsert, List.lookup]
          have hpid : (s.id == pid) = false := beq_eq_false_iff_ne.mpr
            (fun hh => hp hh.symm)
          simp only [hpid, Bool.false_eq_true, if_false]
          exact lookup_none_of_filter _ _ _ hself

theorem applyPeerOps_no_self (ops : List PeerOp) : ∀ (s s' : NodeState),
    List.lookup s.id s.peers = none →
    (ops.all (fun op => !setsSelfPeer s.id op)) = true →
    applyPeerOps s ops = some s' →
    s'.id = s.id ∧ List.lookup s'.id s'.peers = none := by
  induction ops with
  | nil =>
    intro s s' hself _ h
    cases h
    exact ⟨rfl, hself⟩
  | cons op tl ih =>
    intro s s' hself hall h
    rw [List.all_cons, Bool.and_eq_true] at hall
    have hop : setsSelfPeer s.id op = false := by
      cases hx : setsSelfPeer s.id op
      · rfl
      · rw [hx] at hall; simp at hall
    rw [applyPeerOps] at h
    match hstep : applyPeerOp s op with
    | none => rw [hstep] at h; cases h
    | some s1 =>
      rw [hstep] at h
      obtain ⟨hid1, hself1⟩ := applyPeerOp_no_self s s1 op hself hop hstep
      have hall1 : (tl.all (fun o => !setsSelfPeer s1.id o)) = true := by
        rw [hid1]; exact hall.2
      obtain ⟨hid2, hself2⟩ := ih s1 s' hself1 hall1 h
      exact ⟨hid2.trans hid1, hself2⟩

/-- C9 (amended): from a freshly constructed node, any sequence of `Connect`,
`DeletePeer`, and `SetPeer`-with-a-different-id operations leaves no entry
for the node's own id in `peers` (`Connect` and `DeletePeer` guard against
the own id; only a direct `SetPeer` of the own id can violate this). -/
theorem peers_never_self (id : Nat) (myAddr : String) (ops : List PeerOp)
    (s' : NodeState)
    (hops : (ops.all (fun op => !setsSelfPeer id op)) = true)
    (h : applyPeerOps ⟨id, myAddr, [], false⟩ ops = some s') :
    List.lookup id s'.peers = none := by
  obtain ⟨hid, hself⟩ := applyPeerOps_no_self ops ⟨id, myAddr, [], false⟩ s'
    rfl hops h
  rwa [hid] at hself

/-- Witness for C9 (amended): connect two peers, delete one, self-connect
(a no-op); the own id 1 never appears. -/
theorem peers_never_self_witness :
    List.lookup 1 (NodeState.mk 1 "me" [(3, "b")] false).peers = none :=
  peers_never_self 1 "me"
    [PeerOp.connect 2 "a", PeerOp.setPeer 3 "b", PeerOp.deletePeer 2,
     PeerOp.connect 1 "me"]
    ⟨1, "me", [(3, "b")], false⟩ (by decide) rfl

/-- C10: `Send` halts by assertion exactly when the destination is the node
itself, leaving the queue unchanged; under `m.To ≠ n.Id` the assertion is
unreachable and the message is always enqueued at the tail. -/
theorem send_self_assert (selfId : Nat) (queue : List sendmsg) (m : sendmsg) :
    (send selfId queue m = none ↔ m.to' = selfId) ∧
    (m.to' ≠ selfId → send selfId queue m = some (queue ++ [m])) := by
  constructor
  · constructor
    · intro h
      by_cases hc : selfId = m.to'
      · exact hc.symm
      · simp [send, hc] at h
    · intro h
      simp [send, h]
  · intro h
    have hc : ¬ (selfId = m.to') := fun hh => h hh.symm
    simp [send, hc]

/-- Witness for C10: node 1 enqueues a message to 2 but halts on a message
to itself. -/
theorem send_self_assert_witness :
    send 1 [] ⟨2, [97]⟩ = some [⟨2, [97]⟩] ∧ send 1 [] ⟨1, [97]⟩ = none :=
  ⟨(send_self_assert 1 [] ⟨2, [97]⟩).2 (by decide),
   (send_self_assert 1 [] ⟨1, [97]⟩).1.mpr rfl⟩

end DG
